import Mathlib

/-!
Verification of the Signal & Streak Analysis Engine of the
INF1002-GroupB4 stock-analysis repository.

Prices are modelled as exact rationals (`ℚ`); a price series is a
`List ℚ` indexed from 0, matching the Python list/ndarray of closes.
Python `while` loops are embedded as fuel-based recursions whose fuel
bounds the number of remaining iterations exactly as the loop guard
bounds them, so every definition is executable.
-/

/-! ## ProfitMaximizer (src/SMA_and_MaxProfit.py)

`max_profit_multiple` iterates `for i in range(1, len(prices))` adding
each positive delta `prices[i] - prices[i-1]` to the profit.

`extract_trades` walks the array with an index `i`: an inner loop
advances `i` while `prices[i+1] <= prices[i]` (finding the local
minimum `buy`), a second inner loop advances while
`prices[i+1] >= prices[i]` (finding the local maximum `sell`), a pair
`(buy, sell)` is emitted when `sell > buy`, and the outer loop resumes
from `sell + 1`.
-/

/-- Inner loop `while i < n - 1 and prices[i+1] <= prices[i]: i += 1`.
The fuel argument equals `n - 1 - i`, so fuel exhaustion coincides with
the guard `i < n - 1` failing. -/
def skipDownAux (prices : List ℚ) : ℕ → ℕ → ℕ
  | 0, i => i
  | b + 1, i =>
    if prices.getD (i + 1) 0 ≤ prices.getD i 0 then
      skipDownAux prices b (i + 1)
    else i

/-- Inner loop `while i < n - 1 and prices[i+1] >= prices[i]: i += 1`. -/
def skipUpAux (prices : List ℚ) : ℕ → ℕ → ℕ
  | 0, i => i
  | b + 1, i =>
    if prices.getD i 0 ≤ prices.getD (i + 1) 0 then
      skipUpAux prices b (i + 1)
    else i

/-- Advance from `i` to the local minimum (the `buy` candidate). -/
def skipDown (prices : List ℚ) (i : ℕ) : ℕ :=
  skipDownAux prices (prices.length - 1 - i) i

/-- Advance from `i` to the local maximum (the `sell` candidate). -/
def skipUp (prices : List ℚ) (i : ℕ) : ℕ :=
  skipUpAux prices (prices.length - 1 - i) i

/-- Outer loop of `extract_trades`; fuel bounds the remaining
iterations (each iteration moves `i` forward by at least one). -/
def extractTradesAux (prices : List ℚ) : ℕ → ℕ → List (ℕ × ℕ)
  | 0, _ => []
  | b + 1, i =>
    if i < prices.length - 1 then
      let buy := skipDown prices i
      let sell := skipUp prices buy
      let rest := extractTradesAux prices b (sell + 1)
      if buy < sell then (buy, sell) :: rest else rest
    else []

/-- Lean model of `extract_trades(prices)` from
src/SMA_and_MaxProfit.py: the list of `(buy_index, sell_index)` pairs
of all profitable trades, in order of discovery. -/
def extract_trades (prices : List ℚ) : List (ℕ × ℕ) :=
  extractTradesAux prices prices.length 0

/-- Lean model of `max_profit_multiple(prices)` from
src/SMA_and_MaxProfit.py: the sum of the positive one-day deltas. -/
def max_profit_multiple (prices : List ℚ) : ℚ :=
  (List.range' 1 (prices.length - 1)).foldl
    (fun profit i =>
      let g := prices.getD i 0 - prices.getD (i - 1) 0
      if 0 < g then profit + g else profit) 0

/-- Sum of `closes[sell] - closes[buy]` over a list of trades. -/
def tradesGain (prices : List ℚ) (trades : List (ℕ × ℕ)) : ℚ :=
  (trades.map (fun t => prices.getD t.2 0 - prices.getD t.1 0)).sum

/-- Proof helper: profit contributed by the steps from index `i` on,
with an explicit step budget `b`. -/
def profitFromF (prices : List ℚ) : ℕ → ℕ → ℚ
  | 0, _ => 0
  | b + 1, i =>
    (if 0 < prices.getD (i + 1) 0 - prices.getD i 0 then
       prices.getD (i + 1) 0 - prices.getD i 0
     else 0)
    + profitFromF prices b (i + 1)

/-- Profit contributed by the steps from index `i` to the end. -/
def profitFrom (prices : List ℚ) (i : ℕ) : ℚ :=
  profitFromF prices (prices.length - 1 - i) i

/-! ## StreakDetector, skip-policy variant (src/unnamed/part_000,
`calculate_streaks`)

The loop walks `i in range(1, len(prices))`, classifies each step as
up (`prices[i] > prices[i-1]`), down (`<`) or flat (`continue`,
leaving all state untouched).  On a direction change the in-progress
streak is emitted (appended to the `up` or `down` length list and to
`details`) and a new streak of length 1 starts at `i - 1`; on a
matching direction the streak grows.  After the loop the open streak
is flushed with end index `len(prices) - 1`.

The Python `details` tuples hold pandas timestamps `df.index[k]`; the
model replaces each timestamp by its positional index `k`, which is
faithful because `df.index` is strictly increasing.
-/

/-- Direction of a price movement. -/
inductive Dir where
  | up : Dir
  | down : Dir
deriving DecidableEq, Repr

/-- One emitted streak record: positional start index, positional end
index, length in steps, direction, start price, end price. -/
structure Detail where
  startIdx : ℕ
  endIdx : ℕ
  len : ℕ
  dir : Dir
  startPrice : ℚ
  endPrice : ℚ
deriving DecidableEq, Repr

/-- Loop state of `calculate_streaks`. -/
structure StreakState where
  up : List ℕ
  down : List ℕ
  details : List Detail
  current : ℕ
  direction : Option Dir
  startIdx : ℕ
deriving DecidableEq, Repr

/-- Body of `if direction and current_streak greater than 0: append`,
emitting the in-progress streak with end index `e`. -/
def emitStreak (prices : List ℚ) (s : StreakState) (e : ℕ) : StreakState :=
  match s.direction with
  | some Dir.up =>
      { s with up := s.up ++ [s.current],
               details := s.details ++
                 [⟨s.startIdx, e, s.current, Dir.up,
                   prices.getD s.startIdx 0, prices.getD e 0⟩] }
  | some Dir.down =>
      { s with down := s.down ++ [s.current],
               details := s.details ++
                 [⟨s.startIdx, e, s.current, Dir.down,
                   prices.getD s.startIdx 0, prices.getD e 0⟩] }
  | none => s

/-- State update for a non-flat step at loop index `i` with classified
direction `newDir`. -/
def streakUpdate (prices : List ℚ) (s : StreakState) (i : ℕ) (newDir : Dir) :
    StreakState :=
  if s.direction ≠ some newDir then
    let s₁ := if s.direction ≠ none ∧ 0 < s.current then emitStreak prices s (i - 1) else s
    { s₁ with direction := some newDir, current := 1, startIdx := i - 1 }
  else
    { s with current := s.current + 1 }

/-- One iteration of the `calculate_streaks` loop at index `i`. -/
def streakStep (prices : List ℚ) (s : StreakState) (i : ℕ) : StreakState :=
  if prices.getD (i - 1) 0 < prices.getD i 0 then
    streakUpdate prices s i Dir.up
  else if prices.getD i 0 < prices.getD (i - 1) 0 then
    streakUpdate prices s i Dir.down
  else
    s

/-- Initial loop state `current_streak, direction, start_idx = 0, None, 0`. -/
def streakInit : StreakState := ⟨[], [], [], 0, none, 0⟩

/-- Flush of the final open streak after the loop, with end index
`len(prices) - 1`. -/
def streakFinish (prices : List ℚ) (s : StreakState) : StreakState :=
  if s.direction ≠ none ∧ 0 < s.current then
    emitStreak prices s (prices.length - 1)
  else s

/-- Lean model of `calculate_streaks(prices, df)` from
src/unnamed/part_000: returns the up-streak lengths, the down-streak
lengths and the detail records. -/
def calculate_streaks (prices : List ℚ) : List ℕ × List ℕ × List Detail :=
  if prices.length < 2 then ([], [], [])
  else
    let s₁ := streakFinish prices
      ((List.range' 1 (prices.length - 1)).foldl (streakStep prices) streakInit)
    (s₁.up, s₁.down, s₁.details)

/-- A close-price array with no two equal consecutive prices (no flat
steps). -/
def NoFlatSteps (prices : List ℚ) : Prop :=
  ∀ i, i < prices.length → 1 ≤ i → prices.getD i 0 ≠ prices.getD (i - 1) 0

instance (prices : List ℚ) : Decidable (NoFlatSteps prices) :=
  Nat.decidableBallLT prices.length fun i _ =>
    1 ≤ i → prices.getD i 0 ≠ prices.getD (i - 1) 0

/-! ## StreakDetector, hard-break variant (src/Visualisation.py,
`compute_runs`)

Same scan, but an equal-consecutive-price step closes the in-progress
run and resets the direction to `None` (`cur_dir, cur_len = None, 0`),
a hard break.  Runs are `(start, length)` records. -/

/-- Loop state of `compute_runs`. -/
structure RunsState where
  upRuns : List (ℕ × ℕ)
  downRuns : List (ℕ × ℕ)
  curLen : ℕ
  curDir : Option Dir
  startIdx : ℕ
deriving DecidableEq, Repr

/-- One iteration of the `compute_runs` loop at index `i`. -/
def runsStep (c : List ℚ) (s : RunsState) (i : ℕ) : RunsState :=
  if c.getD (i - 1) 0 < c.getD i 0 then
    if s.curDir = some Dir.up then { s with curLen := s.curLen + 1 }
    else
      let s₁ := if s.curDir = some Dir.down ∧ 0 < s.curLen then
                  { s with downRuns := s.downRuns ++ [(s.startIdx, s.curLen)] }
                else s
      { s₁ with curDir := some Dir.up, curLen := 1, startIdx := i - 1 }
  else if c.getD i 0 < c.getD (i - 1) 0 then
    if s.curDir = some Dir.down then { s with curLen := s.curLen + 1 }
    else
      let s₁ := if s.curDir = some Dir.up ∧ 0 < s.curLen then
                  { s with upRuns := s.upRuns ++ [(s.startIdx, s.curLen)] }
                else s
      { s₁ with curDir := some Dir.down, curLen := 1, startIdx := i - 1 }
  else
    let s₁ :=
      if s.curDir = some Dir.up ∧ 0 < s.curLen then
        { s with upRuns := s.upRuns ++ [(s.startIdx, s.curLen)] }
      else if s.curDir = some Dir.down ∧ 0 < s.curLen then
        { s with downRuns := s.downRuns ++ [(s.startIdx, s.curLen)] }
      else s
    { s₁ with curDir := none, curLen := 0 }

/-- Initial loop state of `compute_runs`. -/
def runsInit : RunsState := ⟨[], [], 0, none, 0⟩

/-- Flush of the final open run after the `compute_runs` loop. -/
def runsFinish (s : RunsState) : RunsState :=
  if 0 < s.curLen then
    (if s.curDir = some Dir.up then
       { s with upRuns := s.upRuns ++ [(s.startIdx, s.curLen)] }
     else
       { s with downRuns := s.downRuns ++ [(s.startIdx, s.curLen)] })
  else s

/-- Lean model of `compute_runs(close_values)` from
src/Visualisation.py: the up runs and down runs as
`(start, length)` pairs. -/
def compute_runs (c : List ℚ) : List (ℕ × ℕ) × List (ℕ × ℕ) :=
  let s₁ := runsFinish ((List.range' 1 (c.length - 1)).foldl (runsStep c) runsInit)
  (s₁.upRuns, s₁.downRuns)

/-- Correspondence between a `compute_runs` loop state and a
`calculate_streaks` loop state: same run-length lists per direction,
same in-progress streak. -/
def StatesMatch (r : RunsState) (s : StreakState) : Prop :=
  r.upRuns.map (fun q => q.2) = s.up ∧
  r.downRuns.map (fun q => q.2) = s.down ∧
  r.curLen = s.current ∧
  r.curDir = s.direction ∧
  r.startIdx = s.startIdx

/-! ## SignalGenerator (src/unnamed/part_000, `get_recommendation`)

A trading day is one `Bar`; dates are calendar days counted as
integers, matching the day-granularity semantics of the pandas
timestamps the code compares and subtracts (`(closest - target).days`).
The model takes an already-parsed target date, covering every target
date string that parses; the `InvalidDateFormat` branch for unparseable
strings is kept as an error variant for completeness.

Python `iloc[a:b]` slicing (with possibly negative bounds) is embedded
by `pySlice`.  `Series.rolling(w).mean()` at a position `idx ≥ w` is
the mean of the `w` closes ending at `idx`.  `np.polyfit(x, y, 1)[0]`
is the ordinary-least-squares slope.
-/

/-- One trading day of the DataFrame: positional date plus the Close,
High and Low columns used by `get_recommendation`. -/
structure Bar where
  date : ℤ
  close : ℚ
  high : ℚ
  low : ℚ
deriving DecidableEq, Repr

/-- Structured errors of the signal generator.  `dateOutOfRange`
carries the closest available date, because the Python error string
interpolates `closest.date()`. -/
inductive SigError where
  | invalidDateFormat : SigError
  | dateOutOfRange : ℤ → SigError
  | insufficientHistory : SigError
deriving DecidableEq, Repr

/-- Final recommendation labels. -/
inductive Recommendation where
  | buy : Recommendation
  | sell : Recommendation
  | neutral : Recommendation
deriving DecidableEq, Repr

/-- Rationale lines appended by the three indicator steps, abstracted
from the formatted strings. -/
inductive Tag where
  | aboveSMA : Tag
  | belowSMA : Tag
  | nearSMA : Tag
  | upTrend : Tag
  | downTrend : Tag
  | nearResistance : Tag
  | nearSupport : Tag
  | betweenSR : Tag
deriving DecidableEq, Repr

/-- Successful result of `get_recommendation`: the resolved date, the
native price, the integer score, the recommendation, the confidence
percentage and the rationale lines, per the SignalResult data model. -/
structure SignalResult where
  date : ℤ
  price : ℚ
  score : ℤ
  recommendation : Recommendation
  confidence_pct : ℕ
  signals : List Tag
deriving DecidableEq, Repr

/-- Python list slicing `l[a:b]` with step 1: negative bounds count
from the end, then both bounds clamp to `[0, len(l)]`. -/
def pySlice (l : List α) (a b : ℤ) : List α :=
  let n : ℤ := l.length
  let a₁ := if a < 0 then max (n + a) 0 else min a n
  let b₁ := if b < 0 then max (n + b) 0 else min b n
  (l.take b₁.toNat).drop a₁.toNat

/-- Maximum of a list of prices (`Series.max()`), 0 on the empty list. -/
def listMaxD (l : List ℚ) : ℚ :=
  match l with
  | [] => 0
  | x :: xs => xs.foldl max x

/-- Minimum of a list of prices (`Series.min()`), 0 on the empty list. -/
def listMinD (l : List ℚ) : ℚ :=
  match l with
  | [] => 0
  | x :: xs => xs.foldl min x

/-- Strict rolling mean `Series.rolling(window=w).mean()` evaluated at
position `idx`: the mean of the `w` closes ending at `idx` (the code
only reads it at positions with a full window). -/
def smaAt (closes : List ℚ) (w idx : ℕ) : ℚ :=
  ((closes.take (idx + 1)).drop (idx + 1 - w)).sum / (w : ℚ)

/-- Ordinary-least-squares slope of `ys` against `0, 1, ...`, the
degree-one coefficient `np.polyfit(range(len(ys)), ys, 1)[0]`. -/
def lsSlope (ys : List ℚ) : ℚ :=
  let n : ℚ := ys.length
  let xs : List ℚ := (List.range ys.length).map (fun i => (i : ℚ))
  let xbar := xs.sum / n
  let ybar := ys.sum / n
  let sxx := (xs.map (fun x => (x - xbar) * (x - xbar))).sum
  let sxy := ((xs.zip ys).map (fun p => (p.1 - xbar) * (p.2 - ybar))).sum
  sxy / sxx

/-- Python `min(dates, key=lambda x: abs(x - target))`: the first
element of `dates` minimizing the distance to `target` (0 on the empty
list, where Python would raise; the callers guarantee non-empty data). -/
def closestDate (dates : List ℤ) (target : ℤ) : ℤ :=
  match dates with
  | [] => 0
  | d :: ds => ds.foldl (fun best x => if |x - target| < |best - target| then x else best) d

/-- Score contribution of the SMA-deviation step:
`if diff_pct > 2: score -= 2 elif diff_pct < -2: score += 2`. -/
def smaScoreDelta (diff_pct : ℚ) : ℤ :=
  if 2 < diff_pct then -2 else if diff_pct < -2 then 2 else 0

/-- Rationale line appended by the SMA-deviation step. -/
def smaTagOf (diff_pct : ℚ) : Tag :=
  if 2 < diff_pct then Tag.aboveSMA else if diff_pct < -2 then Tag.belowSMA else Tag.nearSMA

/-- Score contribution of the trend step:
`if slope > 0: score -= 1 else: score += 1`. -/
def trendScoreDelta (slope : ℚ) : ℤ :=
  if 0 < slope then -1 else 1

/-- Rationale line appended by the trend step. -/
def trendTagOf (slope : ℚ) : Tag :=
  if 0 < slope then Tag.upTrend else Tag.downTrend

/-- Score contribution of the support/resistance step:
`if pos > 0.8: score -= 1 elif pos < 0.2: score += 1`. -/
def posScoreDelta (pos : ℚ) : ℤ :=
  if 4 / 5 < pos then -1 else if pos < 1 / 5 then 1 else 0

/-- Rationale line appended by the support/resistance step. -/
def posTagOf (pos : ℚ) : Tag :=
  if 4 / 5 < pos then Tag.nearResistance
  else if pos < 1 / 5 then Tag.nearSupport
  else Tag.betweenSR

/-- Trailing-window high `df.High.iloc[idx - 30 : idx + 1].max()` of
the support/resistance step. -/
def rangeHigh (df : List Bar) (idx : ℕ) : ℚ :=
  listMaxD (pySlice (df.map (fun b => b.high)) ((idx : ℤ) - 30) ((idx : ℤ) + 1))

/-- Trailing-window low `df.Low.iloc[idx - 30 : idx + 1].min()` of the
support/resistance step. -/
def rangeLow (df : List Bar) (idx : ℕ) : ℚ :=
  listMinD (pySlice (df.map (fun b => b.low)) ((idx : ℤ) - 30) ((idx : ℤ) + 1))

/-- Range position `pos = (price - recent_low) / (recent_high -
recent_low)` exactly as `get_recommendation` computes it — with no
special case for a flat range (a zero denominator). -/
def rangePos (df : List Bar) (idx : ℕ) : ℚ :=
  ((df.map (fun b => b.close)).getD idx 0 - rangeLow df idx)
    / (rangeHigh df idx - rangeLow df idx)

/-- Date-resolution step of `get_recommendation`: an exact trading day
is kept; otherwise the chronologically nearest available date is used
if within 7 calendar days, else the `DateOutOfRange` error is returned
with the closest date. -/
def resolveTarget (df : List Bar) (target : ℤ) : Except SigError ℤ :=
  let dates := df.map (fun b => b.date)
  if target ∈ dates then Except.ok target
  else
    let closest := closestDate dates target
    if 7 < |closest - target| then Except.error (SigError.dateOutOfRange closest)
    else Except.ok closest

/-- Indicator pipeline of `get_recommendation` after date resolution:
history guard, SMA deviation, trend slope, support/resistance, final
recommendation and confidence. -/
def analyzeAt (df : List Bar) (resolved : ℤ) (sma_window lookback_days : ℕ) :
    Except SigError SignalResult :=
  let dates := df.map (fun b => b.date)
  let closes := df.map (fun b => b.close)
  let idx := dates.indexOf resolved
  if idx < max sma_window lookback_days then Except.error SigError.insufficientHistory
  else
    let price := closes.getD idx 0
    let sma_val := smaAt closes sma_window idx
    let diff_pct := (price - sma_val) / sma_val * 100
    let recent := pySlice closes ((idx : ℤ) - (lookback_days : ℤ)) ((idx : ℤ) + 1)
    let slope := lsSlope recent
    let pos := rangePos df idx
    let score := smaScoreDelta diff_pct + trendScoreDelta slope + posScoreDelta pos
    let rec₁ := if 2 ≤ score then Recommendation.buy
                else if score ≤ -2 then Recommendation.sell
                else Recommendation.neutral
    let confidence := min (score.natAbs * 25) 100
    Except.ok ⟨resolved, price, score, rec₁, confidence,
      [smaTagOf diff_pct, trendTagOf slope, posTagOf pos]⟩

/-- Lean model of `get_recommendation(target_date_str, df, currency,
sma_window, lookback_days, ...)` from src/unnamed/part_000, for a
target date string that parses to `target`.  Currency conversion is an
external call that never alters the analytical result and is omitted. -/
def get_recommendation (target : ℤ) (df : List Bar)
    (sma_window lookback_days : ℕ) : Except SigError SignalResult :=
  match resolveTarget df target with
  | Except.error e => Except.error e
  | Except.ok resolved => analyzeAt df resolved sma_window lookback_days

/-- Lean model of
`TechnicalIndicators.calculate_position_in_range(price, high, low)`
from src/tess.py: the position of `price` in `[low, high]`, defined as
`0.5` when `high == low`. -/
def calculate_position_in_range (price high low : ℚ) : ℚ :=
  if high = low then 1 / 2 else (price - low) / (high - low)

/-- Concrete series of three consecutive days with flat closes and a
wide high/low range. -/
def dfThree : List Bar := [⟨0, 10, 12, 8⟩, ⟨1, 10, 12, 8⟩, ⟨2, 10, 12, 8⟩]

/-- Concrete series of three identical bars — a completely flat price
history whose trailing high/low range is degenerate. -/
def dfFlat : List Bar := [⟨0, 10, 10, 10⟩, ⟨1, 10, 10, 10⟩, ⟨2, 10, 10, 10⟩]

instance [DecidableEq ε] [DecidableEq α] : DecidableEq (Except ε α) := fun x y =>
  match x, y with
  | Except.ok a, Except.ok b =>
      if h : a = b then isTrue (by rw [h]) else isFalse (by simp [h])
  | Except.error a, Except.error b =>
      if h : a = b then isTrue (by rw [h]) else isFalse (by simp [h])
  | Except.ok _, Except.error _ => isFalse (by simp)
  | Except.error _, Except.ok _ => isFalse (by simp)

/-! ## Sanity checks on concrete inputs -/

example : extract_trades [7, 1, 5, 3, 6, 4] = [(1, 2), (3, 4)] := by decide
example : max_profit_multiple [7, 1, 5, 3, 6, 4] = 7 := by
  norm_num [max_profit_multiple, List.range']
example : max_profit_multiple [5, 4, 3, 2, 1] = 0 := by
  norm_num [max_profit_multiple, List.range']
example : extract_trades [5, 4, 3, 2, 1] = [] := by decide

example :
    calculate_streaks [1, 2, 3, 2, 2, 5] =
      ([2, 1], [1], [⟨0, 2, 2, Dir.up, 1, 3⟩, ⟨2, 4, 1, Dir.down, 3, 2⟩,
        ⟨4, 5, 1, Dir.up, 2, 5⟩]) := by decide

example : compute_runs [1, 2, 2, 3] = ([(0, 1), (2, 1)], []) := by decide
example : calculate_streaks [1, 2, 2, 3] = ([2], [], [⟨0, 3, 2, Dir.up, 1, 3⟩]) := by
  decide

example : resolveTarget dfThree 10 = Except.error (SigError.dateOutOfRange 2) := by
  decide

/-! ## Lemmas about the ProfitMaximizer -/

theorem skipDownAux_ge (p : List ℚ) : ∀ b i, i ≤ skipDownAux p b i := by
  intro b
  induction b with
  | zero => intro i; simp [skipDownAux]
  | succ b ih =>
    intro i
    simp only [skipDownAux]
    split
    · exact le_trans (Nat.le_succ i) (ih (i + 1))
    · exact le_refl i

theorem skipDownAux_le (p : List ℚ) : ∀ b i, skipDownAux p b i ≤ i + b := by
  intro b
  induction b with
  | zero => intro i; simp [skipDownAux]
  | succ b ih =>
    intro i
    simp only [skipDownAux]
    split
    · exact le_trans (ih (i + 1)) (by omega)
    · omega

theorem skipUpAux_ge (p : List ℚ) : ∀ b i, i ≤ skipUpAux p b i := by
  intro b
  induction b with
  | zero => intro i; simp [skipUpAux]
  | succ b ih =>
    intro i
    simp only [skipUpAux]
    split
    · exact le_trans (Nat.le_succ i) (ih (i + 1))
    · exact le_refl i

theorem skipUpAux_le (p : List ℚ) : ∀ b i, skipUpAux p b i ≤ i + b := by
  intro b
  induction b with
  | zero => intro i; simp [skipUpAux]
  | succ b ih =>
    intro i
    simp only [skipUpAux]
    split
    · exact le_trans (ih (i + 1)) (by omega)
    · omega

theorem skipUpAux_mono (p : List ℚ) :
    ∀ b i, p.getD i 0 ≤ p.getD (skipUpAux p b i) 0 := by
  intro b
  induction b with
  | zero => intro i; simp [skipUpAux]
  | succ b ih =>
    intro i
    simp only [skipUpAux]
    split
    · exact le_trans (by assumption) (ih (i + 1))
    · exact le_refl _

theorem skipDownAux_stop (p : List ℚ) :
    ∀ b i, b = p.length - 1 - i →
      ¬(skipDownAux p b i < p.length - 1 ∧
        p.getD (skipDownAux p b i + 1) 0 ≤ p.getD (skipDownAux p b i) 0) := by
  intro b
  induction b with
  | zero =>
    intro i hb
    simp only [skipDownAux]
    intro hcon
    omega
  | succ b ih =>
    intro i hb
    simp only [skipDownAux]
    split
    · exact ih (i + 1) (by omega)
    · intro hcon
      exact absurd hcon.2 (by assumption)

theorem skipUpAux_stop (p : List ℚ) :
    ∀ b i, b = p.length - 1 - i →
      ¬(skipUpAux p b i < p.length - 1 ∧
        p.getD (skipUpAux p b i) 0 ≤ p.getD (skipUpAux p b i + 1) 0) := by
  intro b
  induction b with
  | zero =>
    intro i hb
    simp only [skipUpAux]
    intro hcon
    omega
  | succ b ih =>
    intro i hb
    simp only [skipUpAux]
    split
    · exact ih (i + 1) (by omega)
    · intro hcon
      exact absurd hcon.2 (by assumption)

theorem skipUpAux_first (p : List ℚ) :
    ∀ b i, i < skipUpAux p b i →
      p.getD i 0 ≤ p.getD (i + 1) 0 ∧
      p.getD (i + 1) 0 ≤ p.getD (skipUpAux p b i) 0 := by
  intro b
  induction b with
  | zero => intro i h; simp [skipUpAux] at h
  | succ b ih =>
    intro i h
    revert h
    simp only [skipUpAux]
    split
    · intro _
      refine ⟨by assumption, ?_⟩
      exact skipUpAux_mono p b (i + 1)
    · intro h
      omega

theorem skipDown_ge (p : List ℚ) (i : ℕ) : i ≤ skipDown p i :=
  skipDownAux_ge p _ i

theorem skipUp_ge (p : List ℚ) (i : ℕ) : i ≤ skipUp p i :=
  skipUpAux_ge p _ i

theorem skipDown_le (p : List ℚ) (i : ℕ) (h : i ≤ p.length - 1) :
    skipDown p i ≤ p.length - 1 := by
  have := skipDownAux_le p (p.length - 1 - i) i
  unfold skipDown
  omega

theorem skipUp_le (p : List ℚ) (i : ℕ) (h : i ≤ p.length - 1) :
    skipUp p i ≤ p.length - 1 := by
  have := skipUpAux_le p (p.length - 1 - i) i
  unfold skipUp
  omega

theorem skipDown_stop (p : List ℚ) (i : ℕ) :
    ¬(skipDown p i < p.length - 1 ∧
      p.getD (skipDown p i + 1) 0 ≤ p.getD (skipDown p i) 0) :=
  skipDownAux_stop p _ i rfl

theorem skipUp_stop (p : List ℚ) (i : ℕ) :
    ¬(skipUp p i < p.length - 1 ∧
      p.getD (skipUp p i) 0 ≤ p.getD (skipUp p i + 1) 0) :=
  skipUpAux_stop p _ i rfl

theorem profitFrom_skipDownAux (p : List ℚ) :
    ∀ b i, b = p.length - 1 - i →
      profitFrom p i = profitFrom p (skipDownAux p b i) := by
  intro b
  induction b with
  | zero => intro i hb; simp [skipDownAux]
  | succ b ih =>
    intro i hb
    simp only [skipDownAux]
    split
    · have h1 : profitFrom p i = profitFrom p (i + 1) := by
        unfold profitFrom
        rw [← hb, show p.length - 1 - (i + 1) = b from by omega]
        simp only [profitFromF]
        rw [if_neg (by linarith [show p.getD (i+1) 0 ≤ p.getD i 0 from by assumption])]
        ring
      rw [h1]
      exact ih (i + 1) (by omega)
    · rfl

theorem profitFrom_skipUpAux (p : List ℚ) :
    ∀ b i, b = p.length - 1 - i →
      profitFrom p i =
        (p.getD (skipUpAux p b i) 0 - p.getD i 0) + profitFrom p (skipUpAux p b i) := by
  intro b
  induction b with
  | zero => intro i hb; simp [skipUpAux]
  | succ b ih =>
    intro i hb
    simp only [skipUpAux]
    split
    · have h1 : profitFrom p i =
          (p.getD (i + 1) 0 - p.getD i 0) + profitFrom p (i + 1) := by
        unfold profitFrom
        rw [← hb, show p.length - 1 - (i + 1) = b from by omega]
        simp only [profitFromF]
        by_cases hd : 0 < p.getD (i + 1) 0 - p.getD i 0
        · rw [if_pos hd]
        · rw [if_neg hd]
          have hz : p.getD (i + 1) 0 - p.getD i 0 = 0 := by
            have : p.getD i 0 ≤ p.getD (i + 1) 0 := by assumption
            linarith
          rw [hz]
      rw [h1, ih (i + 1) (by omega)]
      ring
    · ring_nf

theorem profitFrom_skipDown (p : List ℚ) (i : ℕ) :
    profitFrom p i = profitFrom p (skipDown p i) :=
  profitFrom_skipDownAux p _ i rfl

theorem profitFrom_skipUp (p : List ℚ) (i : ℕ) :
    profitFrom p i =
      (p.getD (skipUp p i) 0 - p.getD i 0) + profitFrom p (skipUp p i) :=
  profitFrom_skipUpAux p _ i rfl

theorem profitFrom_of_out (p : List ℚ) (i : ℕ) (h : ¬ i < p.length - 1) :
    profitFrom p i = 0 := by
  unfold profitFrom
  rw [show p.length - 1 - i = 0 from by omega]
  rfl

theorem profitFrom_stop (p : List ℚ) (s : ℕ)
    (h : ¬(s < p.length - 1 ∧ p.getD s 0 ≤ p.getD (s + 1) 0)) :
    profitFrom p s = profitFrom p (s + 1) := by
  by_cases hs : s < p.length - 1
  · have hlt : ¬ p.getD s 0 ≤ p.getD (s + 1) 0 := fun hle => h ⟨hs, hle⟩
    unfold profitFrom
    rw [show p.length - 1 - s = (p.length - 1 - (s + 1)) + 1 from by omega]
    simp only [profitFromF]
    rw [if_neg (by push_neg at hlt; linarith)]
    ring
  · rw [profitFrom_of_out p s hs, profitFrom_of_out p (s + 1) (by omega)]

theorem tradesGain_nil (p : List ℚ) : tradesGain p [] = 0 := rfl

theorem tradesGain_cons (p : List ℚ) (t : ℕ × ℕ) (ts : List (ℕ × ℕ)) :
    tradesGain p (t :: ts) = (p.getD t.2 0 - p.getD t.1 0) + tradesGain p ts := by
  simp [tradesGain]

theorem extractTradesAux_gain (p : List ℚ) :
    ∀ b i, p.length - 1 - i ≤ b →
      tradesGain p (extractTradesAux p b i) = profitFrom p i := by
  intro b
  induction b with
  | zero =>
    intro i hb
    simp only [extractTradesAux, tradesGain_nil]
    rw [profitFrom_of_out p i (by omega)]
  | succ b ih =>
    intro i hb
    simp only [extractTradesAux]
    split
    · have hi : i < p.length - 1 := by assumption
      have hbuy_ge : i ≤ skipDown p i := skipDown_ge p i
      have hsell_ge : skipDown p i ≤ skipUp p (skipDown p i) := skipUp_ge p _
      have hrec :
          tradesGain p (extractTradesAux p b (skipUp p (skipDown p i) + 1)) =
            profitFrom p (skipUp p (skipDown p i) + 1) :=
        ih _ (by omega)
      have h3 :
          profitFrom p (skipUp p (skipDown p i)) =
            profitFrom p (skipUp p (skipDown p i) + 1) :=
        profitFrom_stop p _ (skipUp_stop p (skipDown p i))
      have hchain : profitFrom p i =
          (p.getD (skipUp p (skipDown p i)) 0 - p.getD (skipDown p i) 0) +
            profitFrom p (skipUp p (skipDown p i) + 1) := by
        rw [profitFrom_skipDown p i, profitFrom_skipUp p (skipDown p i), h3]
      split
      · rw [tradesGain_cons, hrec, hchain]
      · have heq : skipUp p (skipDown p i) = skipDown p i := by omega
        rw [hrec, hchain, heq]
        ring
    · simp only [tradesGain_nil]
      rw [profitFrom_of_out p i (by omega)]

theorem range_foldl_profit (p : List ℚ) :
    ∀ b i acc,
      (List.range' (i + 1) b).foldl
        (fun profit j =>
          let g := p.getD j 0 - p.getD (j - 1) 0
          if 0 < g then profit + g else profit) acc
        = acc + profitFromF p b i := by
  intro b
  induction b with
  | zero => intro i acc; simp [profitFromF]
  | succ b ih =>
    intro i acc
    rw [List.range'_succ]
    simp only [List.foldl_cons]
    rw [ih (i + 1)]
    simp only [profitFromF]
    rw [show i + 1 - 1 = i from by omega]
    by_cases hd : 0 < p.getD (i + 1) 0 - p.getD i 0
    · rw [if_pos hd, if_pos hd]; ring
    · rw [if_neg hd, if_neg hd]; ring

theorem max_profit_eq_profitFrom (p : List ℚ) :
    max_profit_multiple p = profitFrom p 0 := by
  unfold max_profit_multiple profitFrom
  have h := range_foldl_profit p (p.length - 1) 0 0
  simpa using h

theorem skipUp_first (p : List ℚ) (i : ℕ) (h : i < skipUp p i) :
    p.getD i 0 ≤ p.getD (i + 1) 0 ∧
    p.getD (i + 1) 0 ≤ p.getD (skipUp p i) 0 :=
  skipUpAux_first p _ i h

theorem extractTradesAux_lb (p : List ℚ) :
    ∀ b i q, q ∈ extractTradesAux p b i → i ≤ q.1 := by
  intro b
  induction b with
  | zero => intro i q hq; simp [extractTradesAux] at hq
  | succ b ih =>
    intro i q hq
    revert hq
    simp only [extractTradesAux]
    split
    · have h1 : i ≤ skipDown p i := skipDown_ge p i
      have h2 : skipDown p i ≤ skipUp p (skipDown p i) := skipUp_ge p _
      split
      · intro hq
        rcases List.mem_cons.mp hq with hq | hq
        · rw [hq]; exact h1
        · have := ih _ q hq
          omega
      · intro hq
        have := ih _ q hq
        omega
    · intro hq
      simp at hq

theorem extractTradesAux_pairs (p : List ℚ) :
    ∀ b i, ∀ q ∈ extractTradesAux p b i,
      q.1 < q.2 ∧ 0 < p.getD q.2 0 - p.getD q.1 0 := by
  intro b
  induction b with
  | zero => intro i q hq; simp [extractTradesAux] at hq
  | succ b ih =>
    intro i q hq
    revert hq
    simp only [extractTradesAux]
    split
    · have hi : i < p.length - 1 := by assumption
      split
      · intro hq
        rcases List.mem_cons.mp hq with hq | hq
        · have hbs : skipDown p i < skipUp p (skipDown p i) := by assumption
          have hbuy_le : skipDown p i ≤ p.length - 1 := skipDown_le p i (by omega)
          have hsell_le : skipUp p (skipDown p i) ≤ p.length - 1 :=
            skipUp_le p _ hbuy_le
          have hfirst := skipUp_first p (skipDown p i) hbs
          have hstop := skipDown_stop p i
          have hbuy_lt : skipDown p i < p.length - 1 := by omega
          have hgt : ¬ p.getD (skipDown p i + 1) 0 ≤ p.getD (skipDown p i) 0 :=
            fun hle => hstop ⟨hbuy_lt, hle⟩
          push_neg at hgt
          rw [hq]
          refine ⟨hbs, ?_⟩
          have := hfirst.2
          simp only
          linarith
        · exact ih _ q hq
      · intro hq
        exact ih _ q hq
    · intro hq
      simp at hq


theorem extractTradesAux_chain (p : List ℚ) :
    ∀ b i, List.Chain' (fun a c => a.2 < c.1) (extractTradesAux p b i) := by
  intro b
  induction b with
  | zero => intro i; simp [extractTradesAux]
  | succ b ih =>
    intro i
    simp only [extractTradesAux]
    split
    · split
      · refine List.chain'_cons'.mpr ⟨?_, ih _⟩
        intro y hy
        have hmem : y ∈ extractTradesAux p b (skipUp p (skipDown p i) + 1) :=
          List.mem_of_mem_head? hy
        have := extractTradesAux_lb p b _ y hmem
        simp only
        omega
      · exact ih _
    · simp

/-! ## Lemmas about the streak detectors -/

theorem streakUpdate_spec (prices : List ℚ) (s : StreakState) (i : ℕ) (newDir : Dir)
    (h2 : s.direction = none → s.current = 0) :
    (streakUpdate prices s i newDir).up.sum + (streakUpdate prices s i newDir).down.sum +
        (streakUpdate prices s i newDir).current =
      s.up.sum + s.down.sum + s.current + 1 ∧
    (streakUpdate prices s i newDir).direction = some newDir := by
  simp only [streakUpdate]
  split
  · split
    · rename_i hguard
      rcases hdd : s.direction with _ | d
      · exact absurd hdd hguard.1
      · cases d <;> simp [emitStreak, hdd] <;> omega
    · rename_i hguard
      have hc0 : s.current = 0 := by
        rcases not_and_or.mp hguard with hval | hval
        · exact h2 (not_not.mp hval)
        · omega
      simp [hc0]
  · rename_i hdir2
    refine ⟨?_, not_not.mp hdir2⟩
    show s.up.sum + s.down.sum + (s.current + 1) = s.up.sum + s.down.sum + s.current + 1
    omega

theorem streakStep_spec (prices : List ℚ) (s : StreakState) (i : ℕ)
    (h2 : s.direction = none → s.current = 0) :
    ((streakStep prices s i).up.sum + (streakStep prices s i).down.sum +
        (streakStep prices s i).current =
      s.up.sum + s.down.sum + s.current +
        (if prices.getD i 0 ≠ prices.getD (i - 1) 0 then 1 else 0)) ∧
    ((streakStep prices s i).direction = none →
      (streakStep prices s i).current = 0) := by
  unfold streakStep
  split
  · rename_i h
    have hne : prices.getD i 0 ≠ prices.getD (i - 1) 0 := ne_of_gt h
    rw [if_pos hne]
    have hspec := streakUpdate_spec prices s i Dir.up h2
    exact ⟨hspec.1, by simp [hspec.2]⟩
  · split
    · rename_i h h'
      have hne : prices.getD i 0 ≠ prices.getD (i - 1) 0 := ne_of_lt h'
      rw [if_pos hne]
      have hspec := streakUpdate_spec prices s i Dir.down h2
      exact ⟨hspec.1, by simp [hspec.2]⟩
    · rename_i h h'
      have heq : prices.getD i 0 = prices.getD (i - 1) 0 :=
        le_antisymm (not_lt.mp h) (not_lt.mp h')
      rw [if_neg (not_not.mpr heq)]
      exact ⟨rfl, h2⟩

theorem streakFold_spec (prices : List ℚ) :
    ∀ (l : List ℕ) (s : StreakState),
      (s.direction = none → s.current = 0) →
      ((l.foldl (streakStep prices) s).up.sum +
          (l.foldl (streakStep prices) s).down.sum +
          (l.foldl (streakStep prices) s).current =
        s.up.sum + s.down.sum + s.current +
          l.countP (fun i => decide (prices.getD i 0 ≠ prices.getD (i - 1) 0))) ∧
      ((l.foldl (streakStep prices) s).direction = none →
        (l.foldl (streakStep prices) s).current = 0) := by
  intro l
  induction l with
  | nil => intro s h2; simpa using h2
  | cons a l ih =>
    intro s h2
    simp only [List.foldl_cons, List.countP_cons]
    have hstep := streakStep_spec prices s a h2
    have hrest := ih (streakStep prices s a) hstep.2
    refine ⟨?_, hrest.2⟩
    rw [hrest.1, hstep.1]
    by_cases hcase : prices.getD a 0 ≠ prices.getD (a - 1) 0 <;>
      simp [hcase] <;> omega

theorem streakFinish_sum (prices : List ℚ) (t : StreakState)
    (hdir : t.direction = none → t.current = 0) :
    (streakFinish prices t).up.sum + (streakFinish prices t).down.sum =
      t.up.sum + t.down.sum + t.current := by
  unfold streakFinish
  split
  · rename_i hguard
    rcases hdd : t.direction with _ | d
    · exact absurd hdd hguard.1
    · cases d <;> simp [emitStreak, hdd] <;> omega
  · rename_i hguard
    have hc0 : t.current = 0 := by
      rcases not_and_or.mp hguard with hval | hval
      · exact hdir (not_not.mp hval)
      · omega
    omega

theorem calculate_streaks_sum (prices : List ℚ) (h : ¬ prices.length < 2) :
    (calculate_streaks prices).1.sum + (calculate_streaks prices).2.1.sum =
      (List.range' 1 (prices.length - 1)).countP
        (fun i => decide (prices.getD i 0 ≠ prices.getD (i - 1) 0)) := by
  simp only [calculate_streaks, if_neg h]
  have hfold := streakFold_spec prices (List.range' 1 (prices.length - 1))
    streakInit (fun _ => rfl)
  have hfin := streakFinish_sum prices
    ((List.range' 1 (prices.length - 1)).foldl (streakStep prices) streakInit)
    hfold.2
  rw [hfin, hfold.1]
  simp [streakInit]

theorem runsStep_match (c : List ℚ) (r : RunsState) (s : StreakState) (i : ℕ)
    (hne : c.getD i 0 ≠ c.getD (i - 1) 0) (hm : StatesMatch r s) :
    StatesMatch (runsStep c r i) (streakStep c s i) := by
  obtain ⟨h1, h2, h3, h4, h5⟩ := hm
  rcases lt_trichotomy (c.getD (i - 1) 0) (c.getD i 0) with hgt | heq | hlt
  · have hnl : ¬ c.getD i 0 < c.getD (i - 1) 0 := not_lt.mpr (le_of_lt hgt)
    simp only [runsStep, streakStep, streakUpdate, if_pos hgt]
    rcases hd : s.direction with _ | d
    · have hcd : r.curDir = none := by rw [h4, hd]
      simp [hd, hcd, StatesMatch, h1, h2, h5]
    · cases d
      · have hcd : r.curDir = some Dir.up := by rw [h4, hd]
        simp [hd, hcd, StatesMatch, h1, h2, h3, h5]
      · have hcd : r.curDir = some Dir.down := by rw [h4, hd]
        by_cases hc : 0 < s.current
        · simp [hd, hcd, hc, h3, StatesMatch, emitStreak, h1, h2, h5]
        · simp [hd, hcd, hc, h3, StatesMatch, emitStreak, h1, h2, h5]
  · exact absurd heq.symm hne
  · have hnl : ¬ c.getD (i - 1) 0 < c.getD i 0 := not_lt.mpr (le_of_lt hlt)
    simp only [runsStep, streakStep, streakUpdate, if_neg hnl, if_pos hlt]
    rcases hd : s.direction with _ | d
    · have hcd : r.curDir = none := by rw [h4, hd]
      simp [hd, hcd, StatesMatch, h1, h2, h5]
    · cases d
      · have hcd : r.curDir = some Dir.up := by rw [h4, hd]
        by_cases hc : 0 < s.current
        · simp [hd, hcd, hc, h3, StatesMatch, emitStreak, h1, h2, h5]
        · simp [hd, hcd, hc, h3, StatesMatch, emitStreak, h1, h2, h5]
      · have hcd : r.curDir = some Dir.down := by rw [h4, hd]
        simp [hd, hcd, StatesMatch, h1, h2, h3, h5]

theorem runsFold_match (c : List ℚ) :
    ∀ (l : List ℕ) (r : RunsState) (s : StreakState),
      (∀ i ∈ l, c.getD i 0 ≠ c.getD (i - 1) 0) → StatesMatch r s →
      (s.direction = none → s.current = 0) →
      StatesMatch (l.foldl (runsStep c) r) (l.foldl (streakStep c) s) := by
  intro l
  induction l with
  | nil => intro r s _ hm _; exact hm
  | cons a l ih =>
    intro r s hsteps hm hdir
    simp only [List.foldl_cons]
    exact ih (runsStep c r a) (streakStep c s a)
      (fun i hi => hsteps i (List.mem_cons_of_mem a hi))
      (runsStep_match c r s a (hsteps a (List.mem_cons_self a l)) hm)
      (streakStep_spec c s a hdir).2

theorem runsFinish_match (c : List ℚ) (r : RunsState) (s : StreakState)
    (hm : StatesMatch r s) (hdir : s.direction = none → s.current = 0) :
    (runsFinish r).upRuns.map (fun q => q.2) = (streakFinish c s).up ∧
    (runsFinish r).downRuns.map (fun q => q.2) = (streakFinish c s).down := by
  obtain ⟨h1, h2, h3, h4, h5⟩ := hm
  unfold runsFinish streakFinish
  rcases hd : s.direction with _ | d
  · have hc0 : s.current = 0 := hdir hd
    have hcl : ¬ 0 < r.curLen := by rw [h3, hc0]; omega
    simp [hd, hcl, h1, h2]
  · have hcd : r.curDir = some d := by rw [h4, hd]
    cases d
    · by_cases hc : 0 < s.current
      · simp [hd, hcd, hc, h3, emitStreak, h1, h2, h5]
      · simp [hd, hcd, hc, h3, h1, h2]
    · by_cases hc : 0 < s.current
      · simp [hd, hcd, hc, h3, emitStreak, h1, h2, h5]
      · simp [hd, hcd, hc, h3, h1, h2]

theorem runs_agree (c : List ℚ) (hnf : NoFlatSteps c) :
    (compute_runs c).1.map (fun q => q.2) = (calculate_streaks c).1 ∧
    (compute_runs c).2.map (fun q => q.2) = (calculate_streaks c).2.1 := by
  by_cases h : c.length < 2
  · have hr : c.length - 1 = 0 := by omega
    simp [compute_runs, calculate_streaks, if_pos h, hr, runsFinish, runsInit]
  · simp only [compute_runs, calculate_streaks, if_neg h]
    have hsteps : ∀ i ∈ List.range' 1 (c.length - 1),
        c.getD i 0 ≠ c.getD (i - 1) 0 := by
      intro i hi
      rw [List.mem_range'_1] at hi
      exact hnf i (by omega) (by omega)
    have hmatch := runsFold_match c (List.range' 1 (c.length - 1)) runsInit
      streakInit hsteps ⟨rfl, rfl, rfl, rfl, rfl⟩ (fun _ => rfl)
    have hdirfold := (streakFold_spec c (List.range' 1 (c.length - 1))
      streakInit (fun _ => rfl)).2
    exact runsFinish_match c _ _ hmatch hdirfold

/-! ## Lemmas about the signal generator -/

theorem closestFold_le_init (t : ℤ) :
    ∀ (ds : List ℤ) (b : ℤ),
      |ds.foldl (fun best x => if |x - t| < |best - t| then x else best) b - t| ≤
        |b - t| := by
  intro ds
  induction ds with
  | nil => intro b; simp
  | cons x ds ih =>
    intro b
    simp only [List.foldl_cons]
    refine le_trans (ih _) ?_
    split
    · exact le_of_lt (by assumption)
    · exact le_refl _

theorem closestFold_mem (t : ℤ) :
    ∀ (ds : List ℤ) (b : ℤ),
      ds.foldl (fun best x => if |x - t| < |best - t| then x else best) b = b ∨
      ds.foldl (fun best x => if |x - t| < |best - t| then x else best) b ∈ ds := by
  intro ds
  induction ds with
  | nil => intro b; exact Or.inl rfl
  | cons x ds ih =>
    intro b
    simp only [List.foldl_cons]
    rcases ih (if |x - t| < |b - t| then x else b) with h | h
    · rw [h]
      split
      · exact Or.inr (List.mem_cons_self x ds)
      · exact Or.inl rfl
    · exact Or.inr (List.mem_cons_of_mem x h)

theorem closestFold_min (t : ℤ) :
    ∀ (ds : List ℤ) (b x : ℤ), x ∈ ds →
      |ds.foldl (fun best y => if |y - t| < |best - t| then y else best) b - t| ≤
        |x - t| := by
  intro ds
  induction ds with
  | nil => intro b x hx; simp at hx
  | cons y ds ih =>
    intro b x hx
    simp only [List.foldl_cons]
    rcases List.mem_cons.mp hx with hx | hx
    · subst hx
      refine le_trans (closestFold_le_init t ds _) ?_
      split
      · exact le_refl _
      · exact not_lt.mp (by assumption)
    · exact ih _ x hx

theorem closestDate_spec (dates : List ℤ) (t : ℤ) (h : dates ≠ []) :
    closestDate dates t ∈ dates ∧
    ∀ x ∈ dates, |closestDate dates t - t| ≤ |x - t| := by
  cases dates with
  | nil => exact absurd rfl h
  | cons d ds =>
    have hshow : closestDate (d :: ds) t =
        ds.foldl (fun best x => if |x - t| < |best - t| then x else best) d := rfl
    constructor
    · rw [hshow]
      rcases closestFold_mem t ds d with hm | hm
      · rw [hm]; exact List.mem_cons_self d ds
      · exact List.mem_cons_of_mem d hm
    · intro x hx
      rw [hshow]
      rcases List.mem_cons.mp hx with hx | hx
      · rw [hx]
        exact closestFold_le_init t ds d
      · exact closestFold_min t ds d x hx

theorem analyzeAt_ne_dateOutOfRange (df : List Bar) (resolved : ℤ)
    (w lb : ℕ) (z : ℤ) :
    analyzeAt df resolved w lb ≠ Except.error (SigError.dateOutOfRange z) := by
  simp only [analyzeAt]
  split
  · simp
  · simp

theorem recommendation_spec (score : ℤ) :
    ((if 2 ≤ score then Recommendation.buy
      else if score ≤ -2 then Recommendation.sell
      else Recommendation.neutral) = Recommendation.buy ↔ 2 ≤ score) ∧
    ((if 2 ≤ score then Recommendation.buy
      else if score ≤ -2 then Recommendation.sell
      else Recommendation.neutral) = Recommendation.sell ↔ score ≤ -2) ∧
    ((if 2 ≤ score then Recommendation.buy
      else if score ≤ -2 then Recommendation.sell
      else Recommendation.neutral) = Recommendation.neutral ↔
        -2 < score ∧ score < 2) := by
  by_cases h1 : 2 ≤ score
  · rw [if_pos h1]
    exact ⟨⟨fun _ => h1, fun _ => rfl⟩,
           ⟨fun hcon => Recommendation.noConfusion hcon,
            fun hcon => absurd hcon (by omega)⟩,
           ⟨fun hcon => Recommendation.noConfusion hcon,
            fun hcon => absurd h1 (by omega)⟩⟩
  · by_cases h2 : score ≤ -2
    · rw [if_neg h1, if_pos h2]
      exact ⟨⟨fun hcon => Recommendation.noConfusion hcon,
              fun hcon => absurd hcon h1⟩,
             ⟨fun _ => h2, fun _ => rfl⟩,
             ⟨fun hcon => Recommendation.noConfusion hcon,
              fun hcon => absurd h2 (by omega)⟩⟩
    · rw [if_neg h1, if_neg h2]
      exact ⟨⟨fun hcon => Recommendation.noConfusion hcon,
              fun hcon => absurd hcon h1⟩,
             ⟨fun hcon => Recommendation.noConfusion hcon,
              fun hcon => absurd hcon h2⟩,
             ⟨fun _ => by omega, fun _ => rfl⟩⟩

/-! ## Claim theorems -/

/-- Claim C1: for every finite list of close prices,
`max_profit_multiple closes` equals the sum of
`closes[sell] - closes[buy]` over the `(buy, sell)` pairs returned by
`extract_trades closes`. -/
theorem c1_profit_optimality (closes : List ℚ) :
    max_profit_multiple closes =
      ((extract_trades closes).map
        (fun t => closes.getD t.2 0 - closes.getD t.1 0)).sum := by
  have h := extractTradesAux_gain closes closes.length 0 (by omega)
  rw [max_profit_eq_profitFrom, ← h]
  rfl

/-- Claim C2: for every close-price array of length N, the sum of the
lengths of all up and down streaks reported by `calculate_streaks` is
at most N - 1, with equality whenever no two consecutive prices are
equal (every step then belongs to exactly one streak and the final
open streak is flushed rather than dropped). -/
theorem c2_streak_completeness (closes : List ℚ) :
    (calculate_streaks closes).1.sum + (calculate_streaks closes).2.1.sum ≤
      closes.length - 1 ∧
    (NoFlatSteps closes →
      (calculate_streaks closes).1.sum + (calculate_streaks closes).2.1.sum =
        closes.length - 1) := by
  by_cases h : closes.length < 2
  · have hz : closes.length - 1 = 0 := by omega
    constructor
    · simp [calculate_streaks, if_pos h]
    · intro _
      simp [calculate_streaks, if_pos h, hz]
  · have hs := calculate_streaks_sum closes h
    constructor
    · rw [hs]
      refine le_trans (List.countP_le_length _) (le_of_eq ?_)
      rw [List.length_range']
    · intro hnf
      rw [hs]
      rw [List.countP_eq_length.mpr ?_, List.length_range']
      intro i hi
      rw [List.mem_range'_1] at hi
      simp only [decide_eq_true_eq]
      exact hnf i (by omega) (by omega)

/-- Witness for C2 at a concrete array with no equal consecutive
prices: both streak lengths of [1, 2, 1] sum to 3 - 1 = 2. -/
theorem c2_streak_completeness_witness :
    (calculate_streaks [1, 2, 1]).1.sum + (calculate_streaks [1, 2, 1]).2.1.sum = 2 :=
  (c2_streak_completeness [1, 2, 1]).2 (by decide)

/-- Claim C8: every (buy, sell) pair emitted by `extract_trades`
satisfies buy < sell with strictly positive gain, and the emitted
pairs are ordered and non-overlapping: each pair's buy index strictly
exceeds the previous pair's sell index. -/
theorem c8_trade_invariants (closes : List ℚ) :
    (∀ t ∈ extract_trades closes,
        t.1 < t.2 ∧ 0 < closes.getD t.2 0 - closes.getD t.1 0) ∧
    List.Chain' (fun a c => a.2 < c.1) (extract_trades closes) :=
  ⟨fun t ht => extractTradesAux_pairs closes closes.length 0 t ht,
   extractTradesAux_chain closes closes.length 0⟩

/-- Witness for C8 at `closes = [7, 1, 5, 3, 6, 4]` and the emitted
pair (1, 2): buy index 1 precedes sell index 2 and the gain 5 - 1 is
positive. -/
theorem c8_trade_invariants_witness :
    (1 : ℕ) < 2 ∧
    0 < ([7, 1, 5, 3, 6, 4] : List ℚ).getD 2 0 -
        ([7, 1, 5, 3, 6, 4] : List ℚ).getD 1 0 :=
  (c8_trade_invariants [7, 1, 5, 3, 6, 4]).1 (1, 2) (by decide)

/-- Claim C9 as stated is false at its own example: on
`[1, 2, 3, 2, 2, 5]`, `calculate_streaks` reports no up streak of
length 1 covering indices [3, 5] — the final up streak starts at
index 4. -/
theorem c9_counterexample :
    ¬ ∃ d ∈ (calculate_streaks [1, 2, 3, 2, 2, 5]).2.2,
        d.dir = Dir.up ∧ d.len = 1 ∧ d.startIdx = 3 ∧ d.endIdx = 5 := by
  decide

/-- Claim C9 amended: on `[1, 2, 3, 2, 2, 5]` the skip-policy detector
reports an up streak of length 2 covering indices [0, 2], skips the
flat 2→2 step, reports a down streak of length 1 covering indices
[2, 4], and flushes a final up streak of length 1 covering indices
[4, 5]. -/
theorem c9_amended :
    calculate_streaks [1, 2, 3, 2, 2, 5] =
      ([2, 1], [1],
        [⟨0, 2, 2, Dir.up, 1, 3⟩, ⟨2, 4, 1, Dir.down, 3, 2⟩,
         ⟨4, 5, 1, Dir.up, 2, 5⟩]) := by
  decide

/-- Claim C10: the two streak-detection variants are not behaviorally
equivalent — on `[1, 2, 2, 3]`, which has an equal consecutive pair,
`compute_runs` and `calculate_streaks` report different up-run length
lists — while on every array with no equal consecutive prices the two
variants report the same run lengths per direction. -/
theorem c10_variant_fork :
    (∃ c : List ℚ, ¬ NoFlatSteps c ∧
      ((compute_runs c).1.map (fun q => q.2) ≠ (calculate_streaks c).1 ∨
       (compute_runs c).2.map (fun q => q.2) ≠ (calculate_streaks c).2.1)) ∧
    (∀ c : List ℚ, NoFlatSteps c →
      (compute_runs c).1.map (fun q => q.2) = (calculate_streaks c).1 ∧
      (compute_runs c).2.map (fun q => q.2) = (calculate_streaks c).2.1) :=
  ⟨⟨[1, 2, 2, 3], by decide, Or.inl (by decide)⟩, fun c h => runs_agree c h⟩

/-- Witness for C10 at the concrete flat-free array [1, 2, 3]: both
detectors report the same run lengths per direction. -/
theorem c10_variant_fork_witness :
    (compute_runs [1, 2, 3]).1.map (fun q => q.2) = (calculate_streaks [1, 2, 3]).1 ∧
    (compute_runs [1, 2, 3]).2.map (fun q => q.2) = (calculate_streaks [1, 2, 3]).2.1 :=
  c10_variant_fork.2 [1, 2, 3] (by decide)

/-- Claim C3: for every target date that parses but is not an exact
trading day of a non-empty series, `get_recommendation` snaps to the
chronologically nearest available date and proceeds; it returns the
structured `DateOutOfRange` error exactly when that nearest date is
more than 7 calendar days away, and the error carries the closest
available date. -/
theorem c3_date_snapping (df : List Bar) (target : ℤ) (w lb : ℕ)
    (hne : df ≠ []) (hmem : target ∉ df.map (fun b => b.date)) :
    (closestDate (df.map (fun b => b.date)) target ∈ df.map (fun b => b.date) ∧
      ∀ d ∈ df.map (fun b => b.date),
        |closestDate (df.map (fun b => b.date)) target - target| ≤ |d - target|) ∧
    (∀ z : ℤ,
      get_recommendation target df w lb = Except.error (SigError.dateOutOfRange z) ↔
        7 < |closestDate (df.map (fun b => b.date)) target - target| ∧
          z = closestDate (df.map (fun b => b.date)) target) ∧
    (|closestDate (df.map (fun b => b.date)) target - target| ≤ 7 →
      get_recommendation target df w lb =
        get_recommendation (closestDate (df.map (fun b => b.date)) target) df w lb) := by
  have hmapne : df.map (fun b => b.date) ≠ [] := by
    intro hcon
    exact hne (List.map_eq_nil_iff.mp hcon)
  have hspec := closestDate_spec (df.map (fun b => b.date)) target hmapne
  refine ⟨hspec, ?_, ?_⟩
  · intro z
    by_cases hfar : 7 < |closestDate (df.map (fun b => b.date)) target - target|
    · have hres : resolveTarget df target =
          Except.error (SigError.dateOutOfRange
            (closestDate (df.map (fun b => b.date)) target)) := by
        unfold resolveTarget
        rw [if_neg hmem, if_pos hfar]
      constructor
      · intro h
        unfold get_recommendation at h
        rw [hres] at h
        simp at h
        exact ⟨hfar, h.symm⟩
      · rintro ⟨_, rfl⟩
        unfold get_recommendation
        rw [hres]
    · have hres : resolveTarget df target =
          Except.ok (closestDate (df.map (fun b => b.date)) target) := by
        unfold resolveTarget
        rw [if_neg hmem, if_neg hfar]
      constructor
      · intro h
        unfold get_recommendation at h
        rw [hres] at h
        exact absurd h (analyzeAt_ne_dateOutOfRange df _ w lb z)
      · rintro ⟨hcon, _⟩
        exact absurd hcon hfar
  · intro hnear
    have hres : resolveTarget df target =
        Except.ok (closestDate (df.map (fun b => b.date)) target) := by
      unfold resolveTarget
      rw [if_neg hmem, if_neg (not_lt.mpr hnear)]
    have hres2 : resolveTarget df (closestDate (df.map (fun b => b.date)) target) =
        Except.ok (closestDate (df.map (fun b => b.date)) target) := by
      unfold resolveTarget
      rw [if_pos hspec.1]
    unfold get_recommendation
    rw [hres, hres2]

/-- Witness for C3 at the concrete series dfThree and target date 10:
the nearest trading day is 2, which is 8 calendar days away, so the
result is the DateOutOfRange error carrying 2. -/
theorem c3_date_snapping_witness :
    get_recommendation 10 dfThree 20 5 = Except.error (SigError.dateOutOfRange 2) :=
  ((c3_date_snapping dfThree 10 20 5 (by decide) (by decide)).2.1 2).mpr
    ⟨by decide, by decide⟩

/-- Claim C4: whenever the resolved target index is below
`max sma_window lookback_days`, `get_recommendation` returns the
structured InsufficientHistory error deterministically; being a total
function into `Except`, it never throws and never computes a partial
SMA. -/
theorem c4_insufficient_history (df : List Bar) (target resolved : ℤ) (w lb : ℕ)
    (hres : resolveTarget df target = Except.ok resolved)
    (hidx : (df.map (fun b => b.date)).indexOf resolved < max w lb) :
    get_recommendation target df w lb = Except.error SigError.insufficientHistory := by
  unfold get_recommendation
  rw [hres]
  show analyzeAt df resolved w lb = Except.error SigError.insufficientHistory
  simp only [analyzeAt]
  rw [if_pos hidx]

/-- Witness for C4: on dfThree with target day 1 and the default
windows 20 and 5, the resolved index 1 is below max 20 5 = 20 and the
InsufficientHistory error is returned. -/
theorem c4_insufficient_history_witness :
    get_recommendation 1 dfThree 20 5 = Except.error SigError.insufficientHistory :=
  c4_insufficient_history dfThree 1 1 20 5 (by decide) (by decide)

/-- Claim C5: on every successful signal computation the
recommendation is BUY iff the final score is at least 2, SELL iff it
is at most -2, NEUTRAL otherwise, and the reported confidence equals
`min (|score| * 25) 100` percent. -/
theorem c5_recommendation_confidence (target : ℤ) (df : List Bar) (w lb : ℕ)
    (r : SignalResult)
    (h : get_recommendation target df w lb = Except.ok r) :
    (r.recommendation = Recommendation.buy ↔ 2 ≤ r.score) ∧
    (r.recommendation = Recommendation.sell ↔ r.score ≤ -2) ∧
    (r.recommendation = Recommendation.neutral ↔ -2 < r.score ∧ r.score < 2) ∧
    r.confidence_pct = min (r.score.natAbs * 25) 100 := by
  unfold get_recommendation at h
  rcases hres : resolveTarget df target with e | resolved
  · rw [hres] at h
    simp at h
  · rw [hres] at h
    have h2 : analyzeAt df resolved w lb = Except.ok r := h
    simp only [analyzeAt] at h2
    split at h2
    · simp at h2
    · rw [Except.ok.injEq] at h2
      subst h2
      exact ⟨(recommendation_spec _).1, (recommendation_spec _).2.1,
             (recommendation_spec _).2.2, rfl⟩

/-- Witness for C5 on dfThree with windows 2 and 1: the computation
succeeds with score 1, recommendation NEUTRAL and confidence 25%. -/
theorem c5_recommendation_confidence_witness :
    (Recommendation.neutral = Recommendation.buy ↔ 2 ≤ (1 : ℤ)) ∧
    (Recommendation.neutral = Recommendation.sell ↔ (1 : ℤ) ≤ -2) ∧
    (Recommendation.neutral = Recommendation.neutral ↔
      (-2 < (1 : ℤ) ∧ (1 : ℤ) < 2)) ∧
    (25 : ℕ) = min ((1 : ℤ).natAbs * 25) 100 :=
  c5_recommendation_confidence 2 dfThree 2 1
    ⟨2, 10, 1, Recommendation.neutral, 25,
     [Tag.nearSMA, Tag.downTrend, Tag.betweenSR]⟩ (by
    have h0 : resolveTarget dfThree 2 = Except.ok 2 := by decide
    have hidx : (dfThree.map (fun b => b.date)).indexOf 2 = 2 := by decide
    have hc : dfThree.map (fun b => b.close) = [10, 10, 10] := by decide
    have hsma : smaAt [10, 10, 10] 2 2 = 10 := by norm_num [smaAt]
    have hslope : lsSlope (pySlice ([10, 10, 10] : List ℚ) 1 3) = 0 := by
      have h₁ : pySlice ([10, 10, 10] : List ℚ) 1 3 = [10, 10] := by decide
      rw [h₁]; norm_num [lsSlope, List.range_succ]
    have hhigh : rangeHigh dfThree 2 = 12 := by decide
    have hlow : rangeLow dfThree 2 = 8 := by decide
    have hpos : rangePos dfThree 2 = 1 / 2 := by
      rw [rangePos, hhigh, hlow, hc]; norm_num
    simp only [get_recommendation, h0]
    simp only [analyzeAt, hidx, hc, hsma, hpos]
    norm_num [hslope, smaScoreDelta, smaTagOf, trendScoreDelta, trendTagOf,
      posScoreDelta, posTagOf])

/-- Claim C6: in the SMA-deviation step, a deviation of exactly 2.00%
does not trigger the above-SMA branch (the comparison is strict, the
score contribution is 0 and the rationale is near-SMA); any deviation
strictly above 2 subtracts 2 from the score, and any deviation
strictly below -2 adds 2. -/
theorem c6_sma_strict_boundary (pct : ℚ) :
    (pct = 2 → smaScoreDelta pct = 0 ∧ smaTagOf pct = Tag.nearSMA) ∧
    (2 < pct → smaScoreDelta pct = -2 ∧ smaTagOf pct = Tag.aboveSMA) ∧
    (pct < -2 → smaScoreDelta pct = 2 ∧ smaTagOf pct = Tag.belowSMA) := by
  refine ⟨?_, ?_, ?_⟩
  · rintro rfl
    norm_num [smaScoreDelta, smaTagOf]
  · intro h
    unfold smaScoreDelta smaTagOf
    rw [if_pos h, if_pos h]
    exact ⟨rfl, rfl⟩
  · intro h
    have h2 : ¬ 2 < pct := by linarith
    unfold smaScoreDelta smaTagOf
    rw [if_neg h2, if_pos h, if_neg h2, if_pos h]
    exact ⟨rfl, rfl⟩

/-- Witness for C6 at the deviations 2, 3 and -3 percent: exactly 2
leaves the score unchanged, 3 subtracts 2, and -3 adds 2. -/
theorem c6_sma_strict_boundary_witness :
    (smaScoreDelta 2 = 0 ∧ smaTagOf 2 = Tag.nearSMA) ∧
    (smaScoreDelta 3 = -2 ∧ smaTagOf 3 = Tag.aboveSMA) ∧
    (smaScoreDelta (-3) = 2 ∧ smaTagOf (-3) = Tag.belowSMA) :=
  ⟨(c6_sma_strict_boundary 2).1 rfl,
   (c6_sma_strict_boundary 3).2.1 (by norm_num),
   (c6_sma_strict_boundary (-3)).2.2 (by norm_num)⟩

/-- Claim C7 is false for the `get_recommendation` pipeline of
src/unnamed/part_000: on the completely flat series dfFlat with target
day 2 and windows 2 and 1, date resolution succeeds and the history
guard passes, yet the divisor `recent_high - recent_low` of the
support/resistance step is zero and the computed range position is not
0.5 — that code path has no flat-range special case. -/
theorem c7_counterexample :
    resolveTarget dfFlat 2 = Except.ok 2 ∧
    ¬ ((dfFlat.map (fun b => b.date)).indexOf 2 < max 2 1) ∧
    rangeHigh dfFlat 2 - rangeLow dfFlat 2 = 0 ∧
    rangePos dfFlat 2 ≠ 1 / 2 := by
  have hh : rangeHigh dfFlat 2 = 10 := by decide
  have hl : rangeLow dfFlat 2 = 10 := by decide
  have hcl : (dfFlat.map (fun b => b.close)).getD 2 0 = 10 := by decide
  refine ⟨by decide, by decide, ?_, ?_⟩
  · rw [hh, hl]; norm_num
  · unfold rangePos
    rw [hh, hl, hcl]
    norm_num

/-- Claim C7 amended: the range-position helper
`calculate_position_in_range` of src/tess.py is total — it returns 0.5
whenever high equals low, and divides by the then-nonzero `high - low`
otherwise — so tess.py's signal generation never divides by zero on a
flat range; the unguarded division lives only in part_000's
`get_recommendation`. -/
theorem c7_amended (price high low : ℚ) :
    (high = low → calculate_position_in_range price high low = 1 / 2) ∧
    (high ≠ low →
      high - low ≠ 0 ∧
      calculate_position_in_range price high low = (price - low) / (high - low)) := by
  constructor
  · intro h
    unfold calculate_position_in_range
    rw [if_pos h]
  · intro h
    unfold calculate_position_in_range
    rw [if_neg h]
    exact ⟨sub_ne_zero.mpr h, rfl⟩

/-- Witness for the amended C7: at a flat range with high = low = 10
the position is 0.5, and at the range [8, 12] the position of price 9
is the genuine quotient 1/4. -/
theorem c7_amended_witness :
    calculate_position_in_range 7 10 10 = 1 / 2 ∧
    (12 - 8 : ℚ) ≠ 0 ∧
    calculate_position_in_range 9 12 8 = (9 - 8) / (12 - 8) :=
  ⟨(c7_amended 7 10 10).1 rfl, (c7_amended 9 12 8).2 (by norm_num)⟩

